import Mathlib

/-!
Verification of the linear shape fitting of the `eos` 3D Morphable Model
library, `include/eos/fitting/linear_shape_fitting.hpp`.

The two functions under study are `fit_shape_to_landmarks_linear_multi` and
its single-image wrapper `fit_shape_to_landmarks_linear`.  The C++ computes
with `float`; the embedding uses exact rationals (`ℚ`), so every statement is
about the algorithm under exact arithmetic.  C++ `assert` failures and
out-of-range `std::vector` element accesses (undefined behaviour) are modelled
as explicit error outcomes of an `Except` result, so that "the call does not
produce a coefficient vector" is observable.
-/

namespace EosFit

open Matrix

/-- Modelled from the spec: the PCA shape model (the `PcaModel` of
`MorphableModel`, whose source is not part of this corpus).  Interface used by
the solver: `get_num_principal_components`, `get_mean` (the `3V`-vector mean,
here a list), and `get_rescaled_pca_basis_at_point vid`, the three rows
`3*vid, 3*vid+1, 3*vid+2` of the rescaled (by square root of the eigenvalue)
PCA basis matrix, here exposed as the full basis entry function
`basis row col`. -/
structure PcaModel where
  numComponents : ℕ
  mean : List ℚ
  basis : ℕ → ℕ → ℚ

/-- Failure outcomes of the embedded computation.
`InputCardinalityMismatch` models a C++ `assert` firing on per-image argument
lists of unequal length or on a landmark/vertex-id count mismatch inside one
image.  `OutOfBounds` models the undefined behaviour of `base_face[k]` when
the `base_face` vector has fewer entries than there are images. -/
inductive FitError where
  | InputCardinalityMismatch : FitError
  | OutOfBounds : FitError
deriving DecidableEq

/-- A 3x4 affine camera matrix (`cv::Mat` of floats), as its entry function
`cam row col`; only rows `0..2` and columns `0..3` are ever read. -/
abbrev Cam := ℕ → ℕ → ℚ

/-- One flattened landmark record: the running loops of the C++ walk all
images' landmarks in order, so each landmark carries its image's camera, its
2D position, its model vertex id, and its image's (effective) base face. -/
structure LmRec where
  cam : Cam
  pt : ℚ × ℚ
  vid : ℕ
  base : List ℚ

instance : Inhabited LmRec := ⟨⟨fun _ _ => 0, (0, 0), 0, []⟩⟩

/-- `sigma_squared_2D` of the source:
`pow(detector_standard_deviation.get_value_or(sqrt(3.0f)), 2)
 + pow(model_standard_deviation.get_value_or(0.0f), 2)`.
In exact arithmetic the default detector term is `(sqrt 3)^2 = 3`. -/
def sigma_squared_2D (dsd msd : Option ℚ) : ℚ :=
  (match dsd with | some d => d ^ 2 | none => 3) +
  (match msd with | some m => m ^ 2 | none => 0)

/-- Entry `(t, c)` of `V_hat_h` (`4N x num_coeffs`): for each landmark the
three rescaled-basis rows of its vertex, then one all-zero row
(`V_hat_h_row_index += 4`). -/
def vhhEntry (model : PcaModel) (flat : List LmRec) (t c : ℕ) : ℚ :=
  if t % 4 < 3 then model.basis (3 * (flat.getD (t / 4) default).vid + t % 4) c else 0

/-- Entry `(r, t)` of the sparse block-diagonal `P` (`3N x 4N`): the triplets
`(3*P_index + x, 4*P_index + y, affine_camera_matrix[k].at(x,y))` place each
image's camera once per landmark on the diagonal. -/
def pEntry (flat : List LmRec) (r t : ℕ) : ℚ :=
  if r / 3 = t / 4 then (flat.getD (r / 3) default).cam (r % 3) (t % 4) else 0

/-- Entry `r` of `y` (`3N`): homogeneous 2D landmark coordinates, third
component staying `1`. -/
def yEntry (flat : List LmRec) (r : ℕ) : ℚ :=
  if r % 3 = 0 then (flat.getD (r / 3) default).pt.1
  else if r % 3 = 1 then (flat.getD (r / 3) default).pt.2
  else 1

/-- Entry `t` of `v_bar` (`4N`): the base face at `vertex_ids[k][i]*3 + s` for
`s < 3`, fourth component staying `1`.  (An `Eigen::VectorXf` read past the
base face's length is undefined behaviour in the C++; it is modelled as `0`
here and never exercised by the claims.) -/
def vbarEntry (flat : List LmRec) (t : ℕ) : ℚ :=
  if t % 4 < 3 then
    (flat.getD (t / 4) default).base.getD (3 * (flat.getD (t / 4) default).vid + t % 4) 0
  else 1

/-- Entry `(r, c)` of `A = P * V_hat_h`. -/
def aEntry (model : PcaModel) (flat : List LmRec) (r c : ℕ) : ℚ :=
  ∑ t ∈ Finset.range (4 * flat.length), pEntry flat r t * vhhEntry model flat t c

/-- Entry `r` of `b = P * v_bar - y`. -/
def bEntry (flat : List LmRec) (r : ℕ) : ℚ :=
  (∑ t ∈ Finset.range (4 * flat.length), pEntry flat r t * vbarEntry flat t) - yEntry flat r

/-- Entry `(i, j)` of `A^T * Omega * A`, with the diagonal
`Omega = (1 / sigma_squared_2D) * Identity`. -/
def gEntry (model : PcaModel) (flat : List LmRec) (sigma2 : ℚ) (i j : ℕ) : ℚ :=
  ∑ r ∈ Finset.range (3 * flat.length),
    1 / sigma2 * aEntry model flat r i * aEntry model flat r j

/-- Entry `i` of `rhs = -A^T * Omega * b`. -/
def rhsEntry (model : PcaModel) (flat : List LmRec) (sigma2 : ℚ) (i : ℕ) : ℚ :=
  -∑ r ∈ Finset.range (3 * flat.length),
    1 / sigma2 * aEntry model flat r i * bEntry flat r

/-- `A^T * Omega * A` as a square matrix over the fitted coefficients. -/
def gMat (model : PcaModel) (K : ℕ) (flat : List LmRec) (sigma2 : ℚ) :
    Matrix (Fin K) (Fin K) ℚ :=
  Matrix.of fun i j => gEntry model flat sigma2 i.val j.val

/-- `rhs = -A^T * Omega * b` as a vector over the fitted coefficients. -/
def rhsVec (model : PcaModel) (K : ℕ) (flat : List LmRec) (sigma2 : ℚ) : Fin K → ℚ :=
  fun i => rhsEntry model flat sigma2 i.val

/-- `AtOmegaAReg = A^T * Omega * A + lambda * Identity` (the `lambda` here is
the already-normalised value the source obtains after `lambda *= num_images`). -/
def normalMatrix (model : PcaModel) (K : ℕ) (flat : List LmRec) (sigma2 lambdaEff : ℚ) :
    Matrix (Fin K) (Fin K) ℚ :=
  gMat model K flat sigma2 + lambdaEff • (1 : Matrix (Fin K) (Fin K) ℚ)

/-- `A = P * V_hat_h` as a rectangular matrix (used to express that
`A^T Omega A` is positive semidefinite). -/
def aMat (model : PcaModel) (K : ℕ) (flat : List LmRec) :
    Matrix (Fin (3 * flat.length)) (Fin K) ℚ :=
  Matrix.of fun r i => aEntry model flat r.val i.val

/-- Executable determinant by cofactor expansion along the first row; proved
equal to `Matrix.det` below. -/
def detQ {K : ℕ} (M : Matrix (Fin K) (Fin K) ℚ) : ℚ :=
  Nat.rec (motive := fun k => Matrix (Fin k) (Fin k) ℚ → ℚ)
    (fun _ => 1)
    (fun k ih N =>
      ∑ j : Fin (k + 1), (-1) ^ (j : ℕ) * N 0 j * ih (N.submatrix Fin.succ j.succAbove))
    K M

/-- Executable Cramer vector: component `i` is the determinant of `M` with
column `i` replaced by `r`. -/
def cramerQ {K : ℕ} (M : Matrix (Fin K) (Fin K) ℚ) (r : Fin K → ℚ) : Fin K → ℚ :=
  fun i => detQ (M.updateColumn i r)

/-- Eigen's `colPivHouseholderQr().solve`: a total function.  On an invertible
matrix it returns the unique solution of `M x = r`, here computed through
Cramer's rule; on a singular matrix Eigen returns an unspecified (but present)
vector, modelled by `0`.  No claim below depends on the value of the singular
branch beyond its being a returned vector. -/
def solveLin {K : ℕ} (M : Matrix (Fin K) (Fin K) ℚ) (r : Fin K → ℚ) : Fin K → ℚ :=
  if detQ M = 0 then 0 else (detQ M)⁻¹ • cramerQ M r

/-- The solved coefficients `c_s`, returned as a `std::vector<float>` of
length `num_coeffs_to_fit`. -/
def fitCoeffs (model : PcaModel) (K : ℕ) (flat : List LmRec) (sigma2 lambdaEff : ℚ) :
    List ℚ :=
  List.ofFn (solveLin (normalMatrix model K flat sigma2 lambdaEff)
    (rhsVec model K flat sigma2))

/-- The per-image loop head of the source, in evaluation order: for each image
`k`, first `assert(landmarks[k].size() == vertex_ids[k].size())`, then the
access `base_face[k]` (out of range when fewer base faces than images were
supplied), then the substitution of the model mean for an empty base face
(`if (base_face[k].size()==0) base_face[k] = get_mean()`).  Returns the
effective base face of every image. -/
def effBaseFaces (model : PcaModel) :
    List (List (ℚ × ℚ)) → List (List ℕ) → List (List ℚ) →
      Except FitError (List (List ℚ))
  | [], _, _ => .ok []
  | l :: ls, v :: vs, bs =>
    if l.length = v.length then
      match bs with
      | [] => .error .OutOfBounds
      | b :: bs2 =>
        match effBaseFaces model ls vs bs2 with
        | .error e => .error e
        | .ok rest => .ok ((if b.isEmpty then model.mean else b) :: rest)
    else .error .InputCardinalityMismatch
  | _ :: _, [], _ => .error .InputCardinalityMismatch

/-- The flattened landmark records, walking images and landmarks in the order
of the running indices `V_hat_h_row_index`, `P_index`, `y_index`,
`v_bar_index` of the source. -/
def flattenInput :
    List Cam → List (List (ℚ × ℚ)) → List (List ℕ) → List (List ℚ) → List LmRec
  | c :: cs, l :: ls, v :: vs, b :: bs =>
    (l.zip v).map (fun pv => ⟨c, pv.1, pv.2, b⟩) ++ flattenInput cs ls vs bs
  | _, _, _, _ => []

/-- `fit_shape_to_landmarks_linear_multi` of the source.  The entry
`assert(affine_camera_matrix.size() == landmarks.size() && landmarks.size()
== vertex_ids.size())` is the outer guard; `lambda *= num_images` with
`num_images = affine_camera_matrix.size()`; `num_coeffs_to_fit` defaults to
the number of principal components, and the standard deviations default
through `sigma_squared_2D`. -/
def fit_shape_to_landmarks_linear_multi (model : PcaModel) (cams : List Cam)
    (lms : List (List (ℚ × ℚ))) (vids : List (List ℕ)) (baseFace : List (List ℚ))
    (lambda : ℚ) (ncf : Option ℕ) (dsd msd : Option ℚ) :
    Except FitError (List ℚ) :=
  if cams.length = lms.length ∧ lms.length = vids.length then
    match effBaseFaces model lms vids baseFace with
    | .error e => .error e
    | .ok bases =>
      .ok (fitCoeffs model (ncf.getD model.numComponents)
        (flattenInput cams lms vids bases) (sigma_squared_2D dsd msd)
        (lambda * (cams.length : ℚ)))
  else .error .InputCardinalityMismatch

/-- `fit_shape_to_landmarks_linear` of the source: wraps the single image's
arguments in one-element lists and delegates. -/
def fit_shape_to_landmarks_linear (model : PcaModel) (cam : Cam)
    (lms : List (ℚ × ℚ)) (vids : List ℕ) (baseFace : List ℚ) (lambda : ℚ)
    (ncf : Option ℕ) (dsd msd : Option ℚ) : Except FitError (List ℚ) :=
  fit_shape_to_landmarks_linear_multi model [cam] [lms] [vids] [baseFace]
    lambda ncf dsd msd

/-- Squared Euclidean norm of a coefficient vector. -/
def sqNormList (l : List ℚ) : ℚ := (l.map (fun x => x ^ 2)).sum

instance {ε α : Type} [DecidableEq ε] [DecidableEq α] : DecidableEq (Except ε α) :=
  fun a b =>
    match a, b with
    | .ok x, .ok y =>
      if h : x = y then .isTrue (by rw [h]) else .isFalse (fun hh => h (Except.ok.inj hh))
    | .error e, .error f =>
      if h : e = f then .isTrue (by rw [h]) else .isFalse (fun hh => h (Except.error.inj hh))
    | .ok _, .error _ => .isFalse (fun hh => Except.noConfusion hh)
    | .error _, .ok _ => .isFalse (fun hh => Except.noConfusion hh)

/-- Concrete one-component model used to instantiate the theorems: one vertex,
zero mean, rescaled basis whose only nonzero entry is `basis 0 0 = 1`. -/
def testModel : PcaModel := ⟨1, [0, 0, 0], fun r c => if r = 0 ∧ c = 0 then 1 else 0⟩

/-- Concrete affine camera: orthographic projection onto the `x`/`y` plane
(rows `(1,0,0,0)`, `(0,1,0,0)`, `(0,0,0,1)`). -/
def testCam : Cam := fun x y =>
  if (x = 0 ∧ y = 0) ∨ (x = 1 ∧ y = 1) ∨ (x = 2 ∧ y = 3) then 1 else 0

/-- Concrete degenerate camera: the all-zero 3x4 matrix, producing a singular
normal-equations matrix under zero regularisation. -/
def camZero : Cam := fun _ _ => 0

/-- Substituting the model mean for every empty per-image base face before the
call does not change `effBaseFaces`: the loop performs exactly that
substitution itself. -/
theorem effBaseFaces_map_default (model : PcaModel) :
    ∀ (ls : List (List (ℚ × ℚ))) (vs : List (List ℕ)) (bs : List (List ℚ)),
      effBaseFaces model ls vs (bs.map fun b => if b.isEmpty then model.mean else b) =
        effBaseFaces model ls vs bs
  | [], _, _ => rfl
  | _ :: _, [], _ => rfl
  | l :: ls, v :: vs, bs => by
    by_cases h : l.length = v.length
    · cases bs with
      | nil => simp [effBaseFaces, h]
      | cons b bs2 =>
        simp only [List.map_cons, effBaseFaces, h, if_true,
          effBaseFaces_map_default model ls vs bs2]
        by_cases hb : b.isEmpty <;> simp [hb, ite_self]
    · simp [effBaseFaces, h]

/-- Claim C9: a per-image base face that is absent (the empty vector) is
replaced by the model mean; the call behaves exactly as if the mean had been
passed for that image. -/
theorem C9_empty_base_face_defaults_to_mean (model : PcaModel) (cams : List Cam)
    (lms : List (List (ℚ × ℚ))) (vids : List (List ℕ)) (baseFace : List (List ℚ))
    (lambda : ℚ) (ncf : Option ℕ) (dsd msd : Option ℚ) :
    fit_shape_to_landmarks_linear_multi model cams lms vids baseFace lambda ncf dsd msd =
      fit_shape_to_landmarks_linear_multi model cams lms vids
        (baseFace.map fun b => if b.isEmpty then model.mean else b) lambda ncf dsd msd := by
  unfold fit_shape_to_landmarks_linear_multi
  rw [effBaseFaces_map_default]

/-- Claim C7: the single-image function is exactly the multi-image function on
one-element lists. -/
theorem C7_single_image_wrapper (model : PcaModel) (cam : Cam) (lms : List (ℚ × ℚ))
    (vids : List ℕ) (baseFace : List ℚ) (lambda : ℚ) (ncf : Option ℕ)
    (dsd msd : Option ℚ) :
    fit_shape_to_landmarks_linear model cam lms vids baseFace lambda ncf dsd msd =
      fit_shape_to_landmarks_linear_multi model [cam] [lms] [vids] [baseFace]
        lambda ncf dsd msd := rfl

/-- A landmark/vertex-id count mismatch at the first image `k` whose counts
differ is reported as `InputCardinalityMismatch`, provided every earlier image
also has a base-face entry (otherwise the `base_face[k]` access of an earlier
image is reached first). -/
theorem effBaseFaces_mismatch (model : PcaModel) :
    ∀ (k : ℕ) (ls : List (List (ℚ × ℚ))) (vs : List (List ℕ)) (bs : List (List ℚ)),
      k < ls.length → (ls.getD k []).length ≠ (vs.getD k []).length →
      (∀ j < k, (ls.getD j []).length = (vs.getD j []).length ∧ j < bs.length) →
      effBaseFaces model ls vs bs = .error .InputCardinalityMismatch := by
  intro k
  induction k with
  | zero =>
    intro ls vs bs hk hbad _
    cases ls with
    | nil => simp at hk
    | cons l ls =>
      cases vs with
      | nil => rfl
      | cons v vs =>
        simp only [List.getD_cons_zero] at hbad
        simp [effBaseFaces, hbad]
  | succ k ih =>
    intro ls vs bs hk hbad hgood
    cases ls with
    | nil => simp at hk
    | cons l ls =>
      cases vs with
      | nil => rfl
      | cons v vs =>
        obtain ⟨h0, hb0⟩ := hgood 0 (Nat.succ_pos k)
        simp only [List.getD_cons_zero] at h0
        cases bs with
        | nil => simp at hb0
        | cons b bs2 =>
          have hrec : effBaseFaces model ls vs bs2 = .error .InputCardinalityMismatch := by
            apply ih ls vs bs2
            · simp only [List.length_cons] at hk; omega
            · simpa using hbad
            · intro j hj
              have := hgood (j + 1) (Nat.succ_lt_succ hj)
              simpa using this
          simp [effBaseFaces, h0, hrec]

/-- Claim C3 (amended): if the per-image lists of cameras, landmarks and
vertex ids have unequal lengths, or some image's landmark and vertex-id counts
differ while every earlier image both has matching counts and a base-face
entry, the call fails with `InputCardinalityMismatch` and returns no
coefficient vector. -/
theorem C3_cardinality_mismatch (model : PcaModel) (cams : List Cam)
    (lms : List (List (ℚ × ℚ))) (vids : List (List ℕ)) (baseFace : List (List ℚ))
    (lambda : ℚ) (ncf : Option ℕ) (dsd msd : Option ℚ)
    (h : ¬(cams.length = lms.length ∧ lms.length = vids.length) ∨
      ∃ k, k < lms.length ∧ (lms.getD k []).length ≠ (vids.getD k []).length ∧
        ∀ j < k, (lms.getD j []).length = (vids.getD j []).length ∧ j < baseFace.length) :
    fit_shape_to_landmarks_linear_multi model cams lms vids baseFace lambda ncf dsd msd =
      .error .InputCardinalityMismatch := by
  by_cases houter : cams.length = lms.length ∧ lms.length = vids.length
  · rcases h with h | ⟨k, hk, hbad, hgood⟩
    · exact absurd houter h
    · unfold fit_shape_to_landmarks_linear_multi
      rw [if_pos houter, effBaseFaces_mismatch model k lms vids baseFace hk hbad hgood]
  · unfold fit_shape_to_landmarks_linear_multi
    rw [if_neg houter]

/-- Witness for claim C3: one camera but zero landmark and vertex-id sets
fails with `InputCardinalityMismatch`. -/
theorem C3_cardinality_mismatch_witness :
    fit_shape_to_landmarks_linear_multi testModel [testCam] [] [] [] 3 none none none =
      .error .InputCardinalityMismatch :=
  C3_cardinality_mismatch testModel [testCam] [] [] [] 3 none none none
    (Or.inl (by decide))

/-- Counterexample to claim C3 as stated: image 1's landmark count (one) and
vertex-id count (zero) differ, yet with the default empty base-face list the
call does not fail with `InputCardinalityMismatch` — image 0's `base_face[0]`
access is reached first (undefined behaviour in the C++, the `OutOfBounds`
outcome here). -/
theorem C3_counterexample :
    ([((2 : ℚ), (0 : ℚ))].length ≠ ([] : List ℕ).length) ∧
      fit_shape_to_landmarks_linear_multi testModel [testCam, testCam]
        [[((2 : ℚ), (0 : ℚ))], [((2 : ℚ), (0 : ℚ))]] [[0], []] [] 3 none none none ≠
        .error .InputCardinalityMismatch := by
  constructor
  · decide
  · intro h
    exact FitError.noConfusion (Except.error.inj h)

/-- When every image's landmark and vertex-id counts match and the base-face
list has an entry for every image, the per-image loop completes. -/
theorem effBaseFaces_ok (model : PcaModel) :
    ∀ (ls : List (List (ℚ × ℚ))) (vs : List (List ℕ)) (bs : List (List ℚ)),
      (∀ j < ls.length, (ls.getD j []).length = (vs.getD j []).length) →
      ls.length ≤ vs.length → ls.length ≤ bs.length →
      ∃ out, effBaseFaces model ls vs bs = .ok out
  | [], _, _, _, _, _ => ⟨[], rfl⟩
  | l :: ls, vs, bs, hc, hv, hb => by
    cases vs with
    | nil => simp at hv
    | cons v vs =>
      cases bs with
      | nil => simp at hb
      | cons b bs2 =>
        have h0 : l.length = v.length := by simpa using hc 0 (by simp)
        obtain ⟨out, hout⟩ := effBaseFaces_ok model ls vs bs2
          (fun j hj => by simpa using hc (j + 1) (by simpa using Nat.succ_lt_succ hj))
          (by simpa using Nat.le_of_succ_le_succ (by simpa using hv))
          (by simpa using Nat.le_of_succ_le_succ (by simpa using hb))
        exact ⟨(if b.isEmpty then model.mean else b) :: out,
          by simp [effBaseFaces, h0, hout]⟩

/-- Claim C10: the call is well-defined only when the base-face list covers
every image.  With at least one image and the default empty base-face list the
access `base_face[0]` is out of range (undefined behaviour in the C++); with a
base-face entry per image (and consistent cardinalities) the call returns a
coefficient vector. -/
theorem C10_base_face_precondition (model : PcaModel) (cams : List Cam)
    (lms : List (List (ℚ × ℚ))) (vids : List (List ℕ)) (lambda : ℚ)
    (ncf : Option ℕ) (dsd msd : Option ℚ)
    (hlen : cams.length = lms.length ∧ lms.length = vids.length)
    (hcounts : ∀ j < lms.length, (lms.getD j []).length = (vids.getD j []).length) :
    (0 < cams.length →
      fit_shape_to_landmarks_linear_multi model cams lms vids [] lambda ncf dsd msd =
        .error .OutOfBounds) ∧
    ∀ baseFace : List (List ℚ), lms.length ≤ baseFace.length →
      ∃ out, fit_shape_to_landmarks_linear_multi model cams lms vids baseFace
        lambda ncf dsd msd = .ok out := by
  constructor
  · intro hpos
    cases lms with
    | nil => rw [hlen.1] at hpos; simp at hpos
    | cons l ls =>
      cases vids with
      | nil => simp at hlen
      | cons v vs =>
        have h0 : l.length = v.length := by simpa using hcounts 0 (by simp)
        unfold fit_shape_to_landmarks_linear_multi
        rw [if_pos hlen]
        have : effBaseFaces model (l :: ls) (v :: vs) [] = .error .OutOfBounds := by
          simp [effBaseFaces, h0]
        rw [this]
  · intro baseFace hb
    obtain ⟨out, hout⟩ := effBaseFaces_ok model lms vids baseFace hcounts
      (le_of_eq hlen.2) hb
    refine ⟨fitCoeffs model (ncf.getD model.numComponents)
      (flattenInput cams lms vids out) (sigma_squared_2D dsd msd)
      (lambda * (cams.length : ℚ)), ?_⟩
    unfold fit_shape_to_landmarks_linear_multi
    rw [if_pos hlen, hout]

/-- Witness for claim C10: one image; the empty base-face list yields the
out-of-range access, a one-entry base-face list yields a coefficient vector. -/
theorem C10_base_face_precondition_witness :
    (fit_shape_to_landmarks_linear_multi testModel [testCam] [[((2 : ℚ), (0 : ℚ))]]
        [[0]] [] 3 none none none = .error .OutOfBounds) ∧
    ∃ out, fit_shape_to_landmarks_linear_multi testModel [testCam]
      [[((2 : ℚ), (0 : ℚ))]] [[0]] [[(0 : ℚ), 0, 0]] 3 none none none = .ok out :=
  ⟨(C10_base_face_precondition testModel [testCam] [[((2 : ℚ), (0 : ℚ))]] [[0]] 3
      none none none (by decide) (by decide)).1 (by decide),
   (C10_base_face_precondition testModel [testCam] [[((2 : ℚ), (0 : ℚ))]] [[0]] 3
      none none none (by decide) (by decide)).2 [[(0 : ℚ), 0, 0]] (by decide)⟩

/-- Claim C5: for a call with `M` images and caller-supplied `lambda`, the
weight applied to the identity in the normal-equations matrix is
`lambda * M` (`lambda *= num_images` in the source). -/
theorem C5_lambda_times_num_images (model : PcaModel) (cams : List Cam)
    (lms : List (List (ℚ × ℚ))) (vids : List (List ℕ)) (baseFace : List (List ℚ))
    (lambda : ℚ) (ncf : Option ℕ) (dsd msd : Option ℚ) (bases : List (List ℚ))
    (hlen : cams.length = lms.length ∧ lms.length = vids.length)
    (hbase : effBaseFaces model lms vids baseFace = .ok bases) :
    fit_shape_to_landmarks_linear_multi model cams lms vids baseFace lambda ncf dsd msd =
      .ok (List.ofFn (solveLin
        (gMat model (ncf.getD model.numComponents) (flattenInput cams lms vids bases)
            (sigma_squared_2D dsd msd) +
          (lambda * (cams.length : ℚ)) •
            (1 : Matrix (Fin (ncf.getD model.numComponents))
              (Fin (ncf.getD model.numComponents)) ℚ))
        (rhsVec model (ncf.getD model.numComponents) (flattenInput cams lms vids bases)
          (sigma_squared_2D dsd msd)))) := by
  unfold fit_shape_to_landmarks_linear_multi
  rw [if_pos hlen, hbase]
  rfl

/-- Witness for claim C5: one image, `lambda = 3`, so the identity is weighted
by `3 * 1`. -/
theorem C5_lambda_times_num_images_witness :
    fit_shape_to_landmarks_linear_multi testModel [testCam] [[((2 : ℚ), (0 : ℚ))]]
        [[0]] [[(0 : ℚ), 0, 0]] 3 none none none =
      .ok (List.ofFn (solveLin
        (gMat testModel 1 (flattenInput [testCam] [[((2 : ℚ), (0 : ℚ))]] [[0]]
            [[(0 : ℚ), 0, 0]]) (sigma_squared_2D none none) +
          ((3 : ℚ) * (([testCam] : List Cam).length : ℚ)) • (1 : Matrix (Fin 1) (Fin 1) ℚ))
        (rhsVec testModel 1 (flattenInput [testCam] [[((2 : ℚ), (0 : ℚ))]] [[0]]
          [[(0 : ℚ), 0, 0]]) (sigma_squared_2D none none)))) :=
  C5_lambda_times_num_images testModel [testCam] [[((2 : ℚ), (0 : ℚ))]] [[0]]
    [[(0 : ℚ), 0, 0]] 3 none none none [[(0 : ℚ), 0, 0]] (by decide) rfl

/-- Defining equation of `detQ` on the empty matrix. -/
theorem detQ_zero (M : Matrix (Fin 0) (Fin 0) ℚ) : detQ M = 1 := rfl

/-- Defining equation of `detQ`: cofactor expansion along row 0. -/
theorem detQ_succ {K : ℕ} (M : Matrix (Fin (K + 1)) (Fin (K + 1)) ℚ) :
    detQ M =
      ∑ j : Fin (K + 1), (-1) ^ (j : ℕ) * M 0 j * detQ (M.submatrix Fin.succ j.succAbove) :=
  rfl

/-- The executable determinant agrees with `Matrix.det`. -/
theorem detQ_eq {K : ℕ} (M : Matrix (Fin K) (Fin K) ℚ) : detQ M = M.det := by
  induction K with
  | zero => rw [detQ_zero, Matrix.det_fin_zero]
  | succ k ih =>
    rw [detQ_succ, Matrix.det_succ_row_zero]
    exact Finset.sum_congr rfl fun j _ => by rw [ih]

/-- The executable Cramer vector agrees with `Matrix.cramer`. -/
theorem cramerQ_eq {K : ℕ} (M : Matrix (Fin K) (Fin K) ℚ) (r : Fin K → ℚ) :
    cramerQ M r = Matrix.cramer M r :=
  funext fun i => by rw [cramerQ, detQ_eq, Matrix.cramer_apply]

/-- On a matrix with nonzero determinant, `solveLin` returns a solution of the
linear system. -/
theorem solveLin_spec {K : ℕ} (M : Matrix (Fin K) (Fin K) ℚ) (r : Fin K → ℚ)
    (h : M.det ≠ 0) : M.mulVec (solveLin M r) = r := by
  unfold solveLin
  rw [if_neg (by rw [detQ_eq]; exact h), cramerQ_eq, detQ_eq, Matrix.mulVec_smul,
    Matrix.mulVec_cramer, smul_smul, inv_mul_cancel₀ h, one_smul]

/-- A matrix with nonzero determinant acts injectively on vectors. -/
theorem mulVec_cancel {K : ℕ} (M : Matrix (Fin K) (Fin K) ℚ) (h : M.det ≠ 0)
    {a b : Fin K → ℚ} (hab : M.mulVec a = M.mulVec b) : a = b := by
  have hinj : Function.Injective M.mulVec :=
    (Matrix.mulVec_injective_iff_isUnit).2
      ((Matrix.isUnit_iff_isUnit_det M).2 (isUnit_iff_ne_zero.2 h))
  exact hinj hab

/-- On a matrix with nonzero determinant, `solveLin` returns THE solution. -/
theorem solveLin_unique {K : ℕ} (M : Matrix (Fin K) (Fin K) ℚ) (r : Fin K → ℚ)
    (h : M.det ≠ 0) (v : Fin K → ℚ) (hv : M.mulVec v = r) : solveLin M r = v :=
  mulVec_cancel M h (by rw [solveLin_spec M r h, hv])

/-- Claim C1: on consistent input whose regularised normal-equations matrix is
invertible, the returned coefficient vector is the solution of
`(A^T Omega A + lambdaEff * I) c = -A^T Omega b` with `lambdaEff = lambda * M`,
`Omega = (1/(sigma_d^2 + sigma_m^2)) I` (defaults `3` and `0`), `A = P V_hat_h`
and `b = P v_bar - y` as built by `gMat`, `rhsVec`, `normalMatrix`. -/
theorem C1_solves_normal_equations (model : PcaModel) (cams : List Cam)
    (lms : List (List (ℚ × ℚ))) (vids : List (List ℕ)) (baseFace : List (List ℚ))
    (lambda : ℚ) (ncf : Option ℕ) (dsd msd : Option ℚ) (bases : List (List ℚ))
    (hlen : cams.length = lms.length ∧ lms.length = vids.length)
    (hbase : effBaseFaces model lms vids baseFace = .ok bases)
    (hdet : (normalMatrix model (ncf.getD model.numComponents)
      (flattenInput cams lms vids bases) (sigma_squared_2D dsd msd)
      (lambda * (cams.length : ℚ))).det ≠ 0) :
    fit_shape_to_landmarks_linear_multi model cams lms vids baseFace lambda ncf dsd msd =
      .ok (List.ofFn (solveLin
        (normalMatrix model (ncf.getD model.numComponents)
          (flattenInput cams lms vids bases) (sigma_squared_2D dsd msd)
          (lambda * (cams.length : ℚ)))
        (rhsVec model (ncf.getD model.numComponents) (flattenInput cams lms vids bases)
          (sigma_squared_2D dsd msd)))) ∧
    (normalMatrix model (ncf.getD model.numComponents)
        (flattenInput cams lms vids bases) (sigma_squared_2D dsd msd)
        (lambda * (cams.length : ℚ))).mulVec
      (solveLin
        (normalMatrix model (ncf.getD model.numComponents)
          (flattenInput cams lms vids bases) (sigma_squared_2D dsd msd)
          (lambda * (cams.length : ℚ)))
        (rhsVec model (ncf.getD model.numComponents) (flattenInput cams lms vids bases)
          (sigma_squared_2D dsd msd))) =
      rhsVec model (ncf.getD model.numComponents) (flattenInput cams lms vids bases)
        (sigma_squared_2D dsd msd) := by
  refine ⟨?_, solveLin_spec _ _ hdet⟩
  unfold fit_shape_to_landmarks_linear_multi
  rw [if_pos hlen, hbase]
  rfl

/-- Witness for claim C1 at the concrete one-landmark instance (normal matrix
`10/3`, nonzero). -/
theorem C1_solves_normal_equations_witness :
    fit_shape_to_landmarks_linear_multi testModel [testCam] [[((2 : ℚ), (0 : ℚ))]]
        [[0]] [[(0 : ℚ), 0, 0]] 3 none none none =
      .ok (List.ofFn (solveLin
        (normalMatrix testModel 1 (flattenInput [testCam] [[((2 : ℚ), (0 : ℚ))]] [[0]]
          [[(0 : ℚ), 0, 0]]) (sigma_squared_2D none none)
          (3 * (([testCam] : List Cam).length : ℚ)))
        (rhsVec testModel 1 (flattenInput [testCam] [[((2 : ℚ), (0 : ℚ))]] [[0]]
          [[(0 : ℚ), 0, 0]]) (sigma_squared_2D none none)))) ∧
    (normalMatrix testModel 1 (flattenInput [testCam] [[((2 : ℚ), (0 : ℚ))]] [[0]]
        [[(0 : ℚ), 0, 0]]) (sigma_squared_2D none none)
        (3 * (([testCam] : List Cam).length : ℚ))).mulVec
      (solveLin
        (normalMatrix testModel 1 (flattenInput [testCam] [[((2 : ℚ), (0 : ℚ))]] [[0]]
          [[(0 : ℚ), 0, 0]]) (sigma_squared_2D none none)
          (3 * (([testCam] : List Cam).length : ℚ)))
        (rhsVec testModel 1 (flattenInput [testCam] [[((2 : ℚ), (0 : ℚ))]] [[0]]
          [[(0 : ℚ), 0, 0]]) (sigma_squared_2D none none))) =
      rhsVec testModel 1 (flattenInput [testCam] [[((2 : ℚ), (0 : ℚ))]] [[0]]
        [[(0 : ℚ), 0, 0]]) (sigma_squared_2D none none) :=
  C1_solves_normal_equations testModel [testCam] [[((2 : ℚ), (0 : ℚ))]] [[0]]
    [[(0 : ℚ), 0, 0]] 3 none none none [[(0 : ℚ), 0, 0]] (by decide) rfl
    (by
      rw [← detQ_eq]
      norm_num [detQ_succ, detQ_zero, normalMatrix, gMat, gEntry, aEntry, pEntry,
        vhhEntry, sigma_squared_2D, flattenInput, testModel, testCam,
        Finset.sum_range_succ, Finset.sum_range_zero, Fin.sum_univ_succ,
        Fin.sum_univ_zero, Matrix.of_apply, List.getD, Matrix.one_apply])

/-- Claim C4 (amended): the code performs no singularity detection; on any
input passing the cardinality and base-face checks it returns a coefficient
vector of length `num_coeffs_to_fit`, whether or not the normal-equations
matrix is invertible. -/
theorem C4_no_singularity_detection (model : PcaModel) (cams : List Cam)
    (lms : List (List (ℚ × ℚ))) (vids : List (List ℕ)) (baseFace : List (List ℚ))
    (lambda : ℚ) (ncf : Option ℕ) (dsd msd : Option ℚ) (bases : List (List ℚ))
    (hlen : cams.length = lms.length ∧ lms.length = vids.length)
    (hbase : effBaseFaces model lms vids baseFace = .ok bases) :
    fit_shape_to_landmarks_linear_multi model cams lms vids baseFace lambda ncf dsd msd =
      .ok (fitCoeffs model (ncf.getD model.numComponents)
        (flattenInput cams lms vids bases) (sigma_squared_2D dsd msd)
        (lambda * (cams.length : ℚ))) ∧
    (fitCoeffs model (ncf.getD model.numComponents) (flattenInput cams lms vids bases)
        (sigma_squared_2D dsd msd) (lambda * (cams.length : ℚ))).length =
      ncf.getD model.numComponents := by
  refine ⟨?_, by simp [fitCoeffs]⟩
  unfold fit_shape_to_landmarks_linear_multi
  rw [if_pos hlen, hbase]

/-- Witness for claim C4 (amended) at the singular concrete instance: the
all-zero camera with zero regularisation still yields a coefficient vector. -/
theorem C4_no_singularity_detection_witness :
    fit_shape_to_landmarks_linear_multi testModel [camZero] [[((0 : ℚ), (0 : ℚ))]]
        [[0]] [[(0 : ℚ), 0, 0]] 0 none none none =
      .ok (fitCoeffs testModel 1 (flattenInput [camZero] [[((0 : ℚ), (0 : ℚ))]] [[0]]
        [[(0 : ℚ), 0, 0]]) (sigma_squared_2D none none)
        (0 * (([camZero] : List Cam).length : ℚ))) ∧
    (fitCoeffs testModel 1 (flattenInput [camZero] [[((0 : ℚ), (0 : ℚ))]] [[0]]
        [[(0 : ℚ), 0, 0]]) (sigma_squared_2D none none)
        (0 * (([camZero] : List Cam).length : ℚ))).length = 1 :=
  C4_no_singularity_detection testModel [camZero] [[((0 : ℚ), (0 : ℚ))]] [[0]]
    [[(0 : ℚ), 0, 0]] 0 none none none [[(0 : ℚ), 0, 0]] (by decide) rfl

/-- Counterexample to claim C4 as stated: on this input the normal-equations
matrix is singular (determinant zero), yet the call does not fail — it still
returns a coefficient vector. -/
theorem C4_counterexample :
    (normalMatrix testModel 1 (flattenInput [camZero] [[((0 : ℚ), (0 : ℚ))]] [[0]]
        [[(0 : ℚ), 0, 0]]) (sigma_squared_2D none none)
        (0 * (([camZero] : List Cam).length : ℚ))).det = 0 ∧
    (fit_shape_to_landmarks_linear_multi testModel [camZero] [[((0 : ℚ), (0 : ℚ))]]
        [[0]] [[(0 : ℚ), 0, 0]] 0 none none none).toOption.isSome = true := by
  constructor
  · rw [← detQ_eq]
    norm_num [detQ_succ, detQ_zero, normalMatrix, gMat, gEntry, aEntry, pEntry,
      vhhEntry, sigma_squared_2D, flattenInput, testModel, camZero,
      Finset.sum_range_succ, Finset.sum_range_zero, Fin.sum_univ_succ,
      Fin.sum_univ_zero, Matrix.of_apply, List.getD, Matrix.one_apply]
  · norm_num [fit_shape_to_landmarks_linear_multi, effBaseFaces, flattenInput,
      Except.toOption, Option.isSome]

/-- When the landmark vector is the exact projection of the base face moved by
coefficients `cstar` (`y = P (v_bar + V_hat_h cstar)`), the residual `b`
equals `-A cstar`. -/
theorem bEntry_of_exact (model : PcaModel) (flat : List LmRec) (K : ℕ) (cstar : ℕ → ℚ)
    (r : ℕ) (hr : r < 3 * flat.length)
    (hexact : ∀ s < 3 * flat.length,
      yEntry flat s =
        ∑ t ∈ Finset.range (4 * flat.length),
          pEntry flat s t *
            (vbarEntry flat t +
              ∑ c ∈ Finset.range K, vhhEntry model flat t c * cstar c)) :
    bEntry flat r = -∑ c ∈ Finset.range K, aEntry model flat r c * cstar c := by
  unfold bEntry
  rw [hexact r hr]
  have h2 : ∀ t ∈ Finset.range (4 * flat.length),
      pEntry flat r t *
          (vbarEntry flat t + ∑ c ∈ Finset.range K, vhhEntry model flat t c * cstar c) =
        pEntry flat r t * vbarEntry flat t +
          ∑ c ∈ Finset.range K, pEntry flat r t * (vhhEntry model flat t c * cstar c) :=
    fun t _ => by rw [mul_add, Finset.mul_sum]
  rw [Finset.sum_congr rfl h2, Finset.sum_add_distrib, sub_add_eq_sub_sub, sub_self,
    zero_sub, Finset.sum_comm]
  congr 1
  refine Finset.sum_congr rfl fun c _ => ?_
  rw [aEntry, Finset.sum_mul]
  exact Finset.sum_congr rfl fun t _ => by ring

/-- Under the exactness hypothesis, the right-hand side of the normal
equations is the image of `cstar` under `A^T Omega A`. -/
theorem rhsVec_of_exact (model : PcaModel) (flat : List LmRec) (K : ℕ) (sigma2 : ℚ)
    (cstar : ℕ → ℚ)
    (hexact : ∀ s < 3 * flat.length,
      yEntry flat s =
        ∑ t ∈ Finset.range (4 * flat.length),
          pEntry flat s t *
            (vbarEntry flat t +
              ∑ c ∈ Finset.range K, vhhEntry model flat t c * cstar c)) :
    rhsVec model K flat sigma2 =
      (gMat model K flat sigma2).mulVec (fun i : Fin K => cstar i.val) := by
  funext i
  have hmv : (gMat model K flat sigma2).mulVec (fun i : Fin K => cstar i.val) i =
      ∑ c ∈ Finset.range K, gEntry model flat sigma2 i.val c * cstar c := by
    rw [Matrix.mulVec, Matrix.dotProduct]
    rw [Finset.sum_range fun c => gEntry model flat sigma2 i.val c * cstar c]
    exact Finset.sum_congr rfl fun j _ => rfl
  rw [hmv, rhsVec, rhsEntry]
  have hb : ∀ r ∈ Finset.range (3 * flat.length),
      1 / sigma2 * aEntry model flat r i.val * bEntry flat r =
        -∑ c ∈ Finset.range K,
          1 / sigma2 * aEntry model flat r i.val * (aEntry model flat r c * cstar c) := by
    intro r hrr
    rw [bEntry_of_exact model flat K cstar r (Finset.mem_range.1 hrr) hexact]
    rw [mul_neg, Finset.mul_sum]
  rw [Finset.sum_congr rfl hb, Finset.sum_neg_distrib, neg_neg, Finset.sum_comm]
  refine Finset.sum_congr rfl fun c _ => ?_
  rw [gEntry, Finset.sum_mul]
  exact Finset.sum_congr rfl fun r _ => by ring

/-- Claim C2: with zero regularisation, exact projections generated by a known
coefficient vector `cstar`, and an invertible `A^T Omega A` (at least as many
independent correspondences as fitted coefficients), the solver recovers
`cstar` exactly. -/
theorem C2_exact_recovery (model : PcaModel) (cams : List Cam)
    (lms : List (List (ℚ × ℚ))) (vids : List (List ℕ)) (baseFace : List (List ℚ))
    (ncf : Option ℕ) (dsd msd : Option ℚ) (bases : List (List ℚ)) (cstar : ℕ → ℚ)
    (hlen : cams.length = lms.length ∧ lms.length = vids.length)
    (hbase : effBaseFaces model lms vids baseFace = .ok bases)
    (hexact : ∀ s < 3 * (flattenInput cams lms vids bases).length,
      yEntry (flattenInput cams lms vids bases) s =
        ∑ t ∈ Finset.range (4 * (flattenInput cams lms vids bases).length),
          pEntry (flattenInput cams lms vids bases) s t *
            (vbarEntry (flattenInput cams lms vids bases) t +
              ∑ c ∈ Finset.range (ncf.getD model.numComponents),
                vhhEntry model (flattenInput cams lms vids bases) t c * cstar c))
    (hdet : (gMat model (ncf.getD model.numComponents)
      (flattenInput cams lms vids bases) (sigma_squared_2D dsd msd)).det ≠ 0) :
    fit_shape_to_landmarks_linear_multi model cams lms vids baseFace 0 ncf dsd msd =
      .ok (List.ofFn fun i : Fin (ncf.getD model.numComponents) => cstar i.val) := by
  unfold fit_shape_to_landmarks_linear_multi
  rw [if_pos hlen, hbase]
  show Except.ok (fitCoeffs model (ncf.getD model.numComponents)
    (flattenInput cams lms vids bases) (sigma_squared_2D dsd msd)
    (0 * (cams.length : ℚ))) = _
  congr 1
  unfold fitCoeffs
  have hNM : normalMatrix model (ncf.getD model.numComponents)
      (flattenInput cams lms vids bases) (sigma_squared_2D dsd msd)
      (0 * (cams.length : ℚ)) =
      gMat model (ncf.getD model.numComponents) (flattenInput cams lms vids bases)
        (sigma_squared_2D dsd msd) := by
    rw [normalMatrix, zero_mul, zero_smul, add_zero]
  rw [hNM, rhsVec_of_exact model (flattenInput cams lms vids bases)
    (ncf.getD model.numComponents) (sigma_squared_2D dsd msd) cstar hexact]
  congr 1
  exact solveLin_unique _ _ hdet _ rfl

/-- Witness for claim C2: the landmark `(2, 0)` is the exact projection of the
shape generated by `cstar = 2`; the solver returns `[2]`. -/
theorem C2_exact_recovery_witness :
    fit_shape_to_landmarks_linear_multi testModel [testCam] [[((2 : ℚ), (0 : ℚ))]]
        [[0]] [[(0 : ℚ), 0, 0]] 0 none none none =
      .ok (List.ofFn fun _ : Fin 1 => (2 : ℚ)) :=
  C2_exact_recovery testModel [testCam] [[((2 : ℚ), (0 : ℚ))]] [[0]] [[(0 : ℚ), 0, 0]]
    none none none [[(0 : ℚ), 0, 0]] (fun _ => 2) (by decide) rfl
    (by
      intro s hs
      have hs3 : s < 3 := by
        have h1 : 3 * (flattenInput [testCam] [[((2 : ℚ), (0 : ℚ))]] [[0]]
            [[(0 : ℚ), 0, 0]]).length = 3 := by decide
        rw [h1] at hs
        exact hs
      interval_cases s <;>
        norm_num [yEntry, pEntry, vbarEntry, vhhEntry, flattenInput, testModel, testCam,
          Finset.sum_range_succ, Finset.sum_range_zero, List.getD, List.zip])
    (by
      rw [← detQ_eq]
      norm_num [detQ_succ, detQ_zero, gMat, gEntry, aEntry, pEntry, vhhEntry,
        sigma_squared_2D, flattenInput, testModel, testCam, Finset.sum_range_succ,
        Finset.sum_range_zero, Fin.sum_univ_succ, Fin.sum_univ_zero, Matrix.of_apply,
        List.getD, List.zip])

/-- The default-or-squared variances are never negative. -/
theorem sigma_squared_2D_nonneg (dsd msd : Option ℚ) : 0 ≤ sigma_squared_2D dsd msd := by
  unfold sigma_squared_2D
  cases dsd <;> cases msd <;> positivity

/-- `A^T Omega A` is symmetric. -/
theorem gEntry_symm (model : PcaModel) (flat : List LmRec) (sigma2 : ℚ) (i j : ℕ) :
    gEntry model flat sigma2 i j = gEntry model flat sigma2 j i :=
  Finset.sum_congr rfl fun _ _ => by ring

/-- `A^T Omega A` factors through the rectangular `A` and the diagonal
`Omega`. -/
theorem gMat_factor (model : PcaModel) (K : ℕ) (flat : List LmRec) (sigma2 : ℚ) :
    gMat model K flat sigma2 =
      (aMat model K flat)ᵀ *
        Matrix.diagonal (fun _ : Fin (3 * flat.length) => 1 / sigma2) *
        aMat model K flat := by
  ext i j
  rw [Matrix.mul_apply]
  have h1 : ∀ r : Fin (3 * flat.length),
      ((aMat model K flat)ᵀ * Matrix.diagonal (fun _ : Fin (3 * flat.length) => 1 / sigma2))
          i r * aMat model K flat r j =
        1 / sigma2 * aEntry model flat r.val i.val * aEntry model flat r.val j.val := by
    intro r
    rw [Matrix.mul_diagonal, Matrix.transpose_apply]
    show aMat model K flat r i * (1 / sigma2) * aMat model K flat r j = _
    rw [aMat, Matrix.of_apply, Matrix.of_apply]
    ring
  rw [Finset.sum_congr rfl fun r _ => h1 r]
  show gEntry model flat sigma2 i.val j.val = _
  rw [gEntry, ← Fin.sum_univ_eq_sum_range
    (fun r => 1 / sigma2 * aEntry model flat r i.val * aEntry model flat r j.val)]

/-- The quadratic form of `A^T Omega A` is nonnegative. -/
theorem gMat_quadform_nonneg (model : PcaModel) (K : ℕ) (flat : List LmRec) (sigma2 : ℚ)
    (hs : 0 ≤ sigma2) (v : Fin K → ℚ) :
    0 ≤ Matrix.dotProduct v ((gMat model K flat sigma2).mulVec v) := by
  rw [gMat_factor, ← Matrix.mulVec_mulVec, ← Matrix.mulVec_mulVec,
    Matrix.dotProduct_mulVec, Matrix.vecMul_transpose]
  refine Finset.sum_nonneg fun r _ => ?_
  rw [Matrix.mulVec_diagonal]
  have hw : 0 ≤ 1 / sigma2 := by positivity
  nlinarith [mul_self_nonneg ((aMat model K flat).mulVec v r)]

/-- The minimiser property of the solution of a symmetric positive
semidefinite system: `c` with `M c = r` minimises `x^T M x - 2 x^T r`. -/
theorem quad_min {K : ℕ} (M : Matrix (Fin K) (Fin K) ℚ) (hsym : Mᵀ = M)
    (hpsd : ∀ x, 0 ≤ Matrix.dotProduct x (M.mulVec x)) (r c : Fin K → ℚ)
    (hc : M.mulVec c = r) (x : Fin K → ℚ) :
    Matrix.dotProduct c (M.mulVec c) - 2 * Matrix.dotProduct c r ≤
      Matrix.dotProduct x (M.mulVec x) - 2 * Matrix.dotProduct x r := by
  have hkey := hpsd (x - c)
  rw [Matrix.mulVec_sub, Matrix.sub_dotProduct, Matrix.dotProduct_sub,
    Matrix.dotProduct_sub] at hkey
  have hcross : Matrix.dotProduct c (M.mulVec x) = Matrix.dotProduct x (M.mulVec c) := by
    rw [Matrix.dotProduct_mulVec c M x]
    conv_lhs => rw [← hsym]
    rw [Matrix.vecMul_transpose, Matrix.dotProduct_comm]
  rw [hcross, hc] at hkey
  have hcc : Matrix.dotProduct c (M.mulVec c) = Matrix.dotProduct c r := by rw [hc]
  rw [hcc]
  linarith [hkey]

/-- A matrix with positive definite quadratic form has nonzero determinant. -/
theorem det_ne_zero_of_posdef {K : ℕ} (M : Matrix (Fin K) (Fin K) ℚ)
    (hpd : ∀ x, x ≠ 0 → 0 < Matrix.dotProduct x (M.mulVec x)) : M.det ≠ 0 := by
  intro hdet
  obtain ⟨v, hv0, hv⟩ := (Matrix.exists_mulVec_eq_zero_iff).2 hdet
  have hpos := hpd v hv0
  rw [hv, Matrix.dotProduct_zero] at hpos
  exact lt_irrefl 0 hpos

/-- Core of the regularisation monotonicity: for a symmetric positive
semidefinite `G` and `0 ≤ mu1 < mu2`, solutions of `(G + mu_i I) c_i = r` have
`|c2|^2 ≤ |c1|^2`. -/
theorem sqnorm_antitone {K : ℕ} (G : Matrix (Fin K) (Fin K) ℚ) (r : Fin K → ℚ)
    (mu1 mu2 : ℚ) (hsym : Gᵀ = G)
    (hpsd : ∀ x, 0 ≤ Matrix.dotProduct x (G.mulVec x))
    (h0 : 0 ≤ mu1) (hlt : mu1 < mu2) (c1 c2 : Fin K → ℚ)
    (h1 : (G + mu1 • (1 : Matrix (Fin K) (Fin K) ℚ)).mulVec c1 = r)
    (h2 : (G + mu2 • (1 : Matrix (Fin K) (Fin K) ℚ)).mulVec c2 = r) :
    Matrix.dotProduct c2 c2 ≤ Matrix.dotProduct c1 c1 := by
  have hq : ∀ (mu : ℚ) (x : Fin K → ℚ),
      Matrix.dotProduct x ((G + mu • (1 : Matrix (Fin K) (Fin K) ℚ)).mulVec x) =
        Matrix.dotProduct x (G.mulVec x) + mu * Matrix.dotProduct x x := by
    intro mu x
    rw [Matrix.add_mulVec, Matrix.smul_mulVec_assoc, Matrix.one_mulVec,
      Matrix.dotProduct_add, Matrix.dotProduct_smul]
    rfl
  have hsym1 : (G + mu1 • (1 : Matrix (Fin K) (Fin K) ℚ))ᵀ = G + mu1 • 1 := by
    rw [Matrix.transpose_add, hsym, Matrix.transpose_smul, Matrix.transpose_one]
  have hsym2 : (G + mu2 • (1 : Matrix (Fin K) (Fin K) ℚ))ᵀ = G + mu2 • 1 := by
    rw [Matrix.transpose_add, hsym, Matrix.transpose_smul, Matrix.transpose_one]
  have hpsd1 : ∀ x, 0 ≤ Matrix.dotProduct x
      ((G + mu1 • (1 : Matrix (Fin K) (Fin K) ℚ)).mulVec x) := by
    intro x
    rw [hq]
    have hxx : 0 ≤ Matrix.dotProduct x x :=
      Finset.sum_nonneg fun i _ => mul_self_nonneg (x i)
    nlinarith [hpsd x]
  have hpsd2 : ∀ x, 0 ≤ Matrix.dotProduct x
      ((G + mu2 • (1 : Matrix (Fin K) (Fin K) ℚ)).mulVec x) := by
    intro x
    rw [hq]
    have hxx : 0 ≤ Matrix.dotProduct x x :=
      Finset.sum_nonneg fun i _ => mul_self_nonneg (x i)
    nlinarith [hpsd x]
  have hmin1 := quad_min (G + mu1 • 1) hsym1 hpsd1 r c1 h1 c2
  have hmin2 := quad_min (G + mu2 • 1) hsym2 hpsd2 r c2 h2 c1
  rw [hq, hq] at hmin1
  rw [hq, hq] at hmin2
  have hfac : 0 ≤ (mu2 - mu1) * (Matrix.dotProduct c1 c1 - Matrix.dotProduct c2 c2) := by
    nlinarith [hmin1, hmin2]
  nlinarith [hfac, hlt]

/-- The squared norm of an `ofFn` list is the dot product of the function with
itself. -/
theorem sqNormList_ofFn {n : ℕ} (v : Fin n → ℚ) :
    sqNormList (List.ofFn v) = Matrix.dotProduct v v := by
  rw [sqNormList, List.map_ofFn, List.sum_ofFn, Matrix.dotProduct]
  exact Finset.sum_congr rfl fun i _ => by simp [Function.comp]; ring

/-- `A^T Omega A` is symmetric, matrix form. -/
theorem gMat_transpose (model : PcaModel) (K : ℕ) (flat : List LmRec) (sigma2 : ℚ) :
    (gMat model K flat sigma2)ᵀ = gMat model K flat sigma2 := by
  ext i j
  rw [Matrix.transpose_apply, gMat, Matrix.of_apply, Matrix.of_apply]
  exact gEntry_symm model flat sigma2 j.val i.val

/-- Quadratic form of the regularised normal matrix. -/
theorem normalMatrix_quadform (model : PcaModel) (K : ℕ) (flat : List LmRec)
    (sigma2 mu : ℚ) (x : Fin K → ℚ) :
    Matrix.dotProduct x ((normalMatrix model K flat sigma2 mu).mulVec x) =
      Matrix.dotProduct x ((gMat model K flat sigma2).mulVec x) +
        mu * Matrix.dotProduct x x := by
  rw [normalMatrix, Matrix.add_mulVec, Matrix.smul_mulVec_assoc, Matrix.one_mulVec,
    Matrix.dotProduct_add, Matrix.dotProduct_smul]
  rfl

/-- With strictly positive regularisation the normal matrix is positive
definite, hence invertible. -/
theorem normalMatrix_det_ne_zero (model : PcaModel) (K : ℕ) (flat : List LmRec)
    (sigma2 mu : ℚ) (hs : 0 ≤ sigma2) (hmu : 0 < mu) :
    (normalMatrix model K flat sigma2 mu).det ≠ 0 := by
  apply det_ne_zero_of_posdef
  intro x hx
  rw [normalMatrix_quadform]
  have hxx : 0 < Matrix.dotProduct x x := by
    rcases lt_or_eq_of_le (Finset.sum_nonneg fun i _ => mul_self_nonneg (x i) :
      (0 : ℚ) ≤ Matrix.dotProduct x x) with h | h
    · exact h
    · exact absurd (Matrix.dotProduct_self_eq_zero.1 h.symm) hx
  nlinarith [gMat_quadform_nonneg model K flat sigma2 hs x]

/-- Increasing the effective regularisation weight never increases the squared
norm of the solved coefficients. -/
theorem fitCoeffs_norm_antitone (model : PcaModel) (K : ℕ) (flat : List LmRec)
    (sigma2 mu1 mu2 : ℚ) (hs : 0 ≤ sigma2) (h0 : 0 ≤ mu1) (hlt : mu1 < mu2)
    (hmu2 : 0 < mu2)
    (hdet1 : (normalMatrix model K flat sigma2 mu1).det ≠ 0) :
    sqNormList (fitCoeffs model K flat sigma2 mu2) ≤
      sqNormList (fitCoeffs model K flat sigma2 mu1) := by
  have hdet2 : (normalMatrix model K flat sigma2 mu2).det ≠ 0 :=
    normalMatrix_det_ne_zero model K flat sigma2 mu2 hs hmu2
  have hs1 := solveLin_spec (normalMatrix model K flat sigma2 mu1)
    (rhsVec model K flat sigma2) hdet1
  have hs2 := solveLin_spec (normalMatrix model K flat sigma2 mu2)
    (rhsVec model K flat sigma2) hdet2
  rw [fitCoeffs, fitCoeffs, sqNormList_ofFn, sqNormList_ofFn]
  exact sqnorm_antitone (gMat model K flat sigma2) (rhsVec model K flat sigma2) mu1 mu2
    (gMat_transpose model K flat sigma2)
    (gMat_quadform_nonneg model K flat sigma2 hs) h0 hlt _ _ hs1 hs2

/-- Claim C8: for fixed input (with the first system solvable), raising the
caller's regularisation parameter never increases the Euclidean norm of the
returned coefficient vector (stated through the squared norm, which orders the
same way). -/
theorem C8_regularisation_monotone (model : PcaModel) (cams : List Cam)
    (lms : List (List (ℚ × ℚ))) (vids : List (List ℕ)) (baseFace : List (List ℚ))
    (ncf : Option ℕ) (dsd msd : Option ℚ) (bases : List (List ℚ))
    (lam1 lam2 : ℚ) (c1 c2 : List ℚ)
    (hlen : cams.length = lms.length ∧ lms.length = vids.length)
    (hbase : effBaseFaces model lms vids baseFace = .ok bases)
    (hM : 1 ≤ cams.length) (h0 : 0 ≤ lam1) (hlt : lam1 < lam2)
    (hdet1 : (normalMatrix model (ncf.getD model.numComponents)
      (flattenInput cams lms vids bases) (sigma_squared_2D dsd msd)
      (lam1 * (cams.length : ℚ))).det ≠ 0)
    (h1 : fit_shape_to_landmarks_linear_multi model cams lms vids baseFace lam1
      ncf dsd msd = .ok c1)
    (h2 : fit_shape_to_landmarks_linear_multi model cams lms vids baseFace lam2
      ncf dsd msd = .ok c2) :
    sqNormList c2 ≤ sqNormList c1 := by
  have hlenpos : (0 : ℚ) < (cams.length : ℚ) := by
    exact_mod_cast Nat.pos_of_ne_zero (by omega)
  have e1 : fit_shape_to_landmarks_linear_multi model cams lms vids baseFace lam1
      ncf dsd msd = .ok (fitCoeffs model (ncf.getD model.numComponents)
        (flattenInput cams lms vids bases) (sigma_squared_2D dsd msd)
        (lam1 * (cams.length : ℚ))) := by
    unfold fit_shape_to_landmarks_linear_multi
    rw [if_pos hlen, hbase]
  have e2 : fit_shape_to_landmarks_linear_multi model cams lms vids baseFace lam2
      ncf dsd msd = .ok (fitCoeffs model (ncf.getD model.numComponents)
        (flattenInput cams lms vids bases) (sigma_squared_2D dsd msd)
        (lam2 * (cams.length : ℚ))) := by
    unfold fit_shape_to_landmarks_linear_multi
    rw [if_pos hlen, hbase]
  have hc1 : c1 = fitCoeffs model (ncf.getD model.numComponents)
      (flattenInput cams lms vids bases) (sigma_squared_2D dsd msd)
      (lam1 * (cams.length : ℚ)) := Except.ok.inj (e1.symm.trans h1).symm
  have hc2 : c2 = fitCoeffs model (ncf.getD model.numComponents)
      (flattenInput cams lms vids bases) (sigma_squared_2D dsd msd)
      (lam2 * (cams.length : ℚ)) := Except.ok.inj (e2.symm.trans h2).symm
  rw [hc1, hc2]
  exact fitCoeffs_norm_antitone model (ncf.getD model.numComponents)
    (flattenInput cams lms vids bases) (sigma_squared_2D dsd msd)
    (lam1 * (cams.length : ℚ)) (lam2 * (cams.length : ℚ))
    (sigma_squared_2D_nonneg dsd msd)
    (mul_nonneg h0 (le_of_lt hlenpos))
    (by nlinarith [hlenpos])
    (by nlinarith [hlenpos, lt_of_le_of_lt h0 hlt])
    hdet1

/-- Witness for claim C8: at the concrete instance the solution for
`lambda = 0` is `[2]`, for `lambda = 3` it is `[1/5]`, and the squared norm
drops accordingly. -/
theorem C8_regularisation_monotone_witness :
    sqNormList [(1 : ℚ)/5] ≤ sqNormList [(2 : ℚ)] :=
  C8_regularisation_monotone testModel [testCam] [[((2 : ℚ), (0 : ℚ))]] [[0]]
    [[(0 : ℚ), 0, 0]] none none none [[(0 : ℚ), 0, 0]] 0 3 [(2 : ℚ)] [(1 : ℚ)/5]
    (by decide) rfl (by decide) (by norm_num) (by norm_num)
    (by
      rw [← detQ_eq]
      norm_num [detQ_succ, detQ_zero, normalMatrix, gMat, gEntry, aEntry, pEntry,
        vhhEntry, sigma_squared_2D, flattenInput, testModel, testCam,
        Finset.sum_range_succ, Finset.sum_range_zero, Fin.sum_univ_succ,
        Fin.sum_univ_zero, Matrix.of_apply, List.getD, List.zip, Matrix.one_apply])
    (by
      norm_num [fit_shape_to_landmarks_linear_multi, effBaseFaces, flattenInput,
        fitCoeffs, solveLin, cramerQ, detQ_succ, detQ_zero, normalMatrix, gMat, rhsVec,
        gEntry, rhsEntry, aEntry, bEntry, pEntry, vhhEntry, yEntry, vbarEntry,
        sigma_squared_2D, testModel, testCam, Finset.sum_range_succ,
        Finset.sum_range_zero, Fin.sum_univ_succ, Fin.sum_univ_zero, Matrix.of_apply,
        List.getD, Matrix.updateColumn_apply, Matrix.one_apply, List.zip])
    (by
      norm_num [fit_shape_to_landmarks_linear_multi, effBaseFaces, flattenInput,
        fitCoeffs, solveLin, cramerQ, detQ_succ, detQ_zero, normalMatrix, gMat, rhsVec,
        gEntry, rhsEntry, aEntry, bEntry, pEntry, vhhEntry, yEntry, vbarEntry,
        sigma_squared_2D, testModel, testCam, Finset.sum_range_succ,
        Finset.sum_range_zero, Fin.sum_univ_succ, Fin.sum_univ_zero, Matrix.of_apply,
        List.getD, Matrix.updateColumn_apply, Matrix.one_apply, List.zip])

/-- `P` reads only the record of its row's landmark: rows of the first block
of an appended flat list read the first list. -/
theorem pEntry_append_left (L1 L2 : List LmRec) (r t : ℕ) (hr : r < 3 * L1.length) :
    pEntry (L1 ++ L2) r t = pEntry L1 r t := by
  unfold pEntry
  rw [List.getD_append _ _ _ _ (by omega)]

/-- Block-diagonality: a row of the first image block meets only columns of
the first block. -/
theorem pEntry_append_left_zero (L1 L2 : List LmRec) (r t : ℕ)
    (hr : r < 3 * L1.length) (ht : 4 * L1.length ≤ t) : pEntry (L1 ++ L2) r t = 0 := by
  unfold pEntry
  rw [if_neg (by omega)]

/-- Rows past the first block of `P` restart at the second list. -/
theorem pEntry_append_right (L1 L2 : List LmRec) (r t : ℕ) :
    pEntry (L1 ++ L2) (3 * L1.length + r) (4 * L1.length + t) = pEntry L2 r t := by
  unfold pEntry
  have h3 : (3 * L1.length + r) / 3 = L1.length + r / 3 := by omega
  have h4 : (4 * L1.length + t) / 4 = L1.length + t / 4 := by omega
  have hm3 : (3 * L1.length + r) % 3 = r % 3 := by omega
  have hm4 : (4 * L1.length + t) % 4 = t % 4 := by omega
  rw [h3, h4, hm3, hm4, List.getD_append_right _ _ _ _ (by omega),
    Nat.add_sub_cancel_left]
  exact if_congr (by omega) rfl rfl

/-- Block-diagonality: a row past the first block meets no column of the first
block. -/
theorem pEntry_append_right_zero (L1 L2 : List LmRec) (r t : ℕ)
    (ht : t < 4 * L1.length) : pEntry (L1 ++ L2) (3 * L1.length + r) t = 0 := by
  unfold pEntry
  rw [if_neg (by omega)]

/-- `V_hat_h` rows of the first block of an appended flat list. -/
theorem vhhEntry_append_left (model : PcaModel) (L1 L2 : List LmRec) (t c : ℕ)
    (ht : t < 4 * L1.length) :
    vhhEntry model (L1 ++ L2) t c = vhhEntry model L1 t c := by
  unfold vhhEntry
  rw [List.getD_append _ _ _ _ (by omega)]

/-- `V_hat_h` rows past the first block. -/
theorem vhhEntry_append_right (model : PcaModel) (L1 L2 : List LmRec) (t c : ℕ) :
    vhhEntry model (L1 ++ L2) (4 * L1.length + t) c = vhhEntry model L2 t c := by
  unfold vhhEntry
  have h4 : (4 * L1.length + t) / 4 = L1.length + t / 4 := by omega
  have hm4 : (4 * L1.length + t) % 4 = t % 4 := by omega
  rw [h4, hm4, List.getD_append_right _ _ _ _ (by omega), Nat.add_sub_cancel_left]

/-- `y` entries of the first block of an appended flat list. -/
theorem yEntry_append_left (L1 L2 : List LmRec) (r : ℕ) (hr : r < 3 * L1.length) :
    yEntry (L1 ++ L2) r = yEntry L1 r := by
  unfold yEntry
  rw [List.getD_append _ _ _ _ (by omega)]

/-- `y` entries past the first block. -/
theorem yEntry_append_right (L1 L2 : List LmRec) (r : ℕ) :
    yEntry (L1 ++ L2) (3 * L1.length + r) = yEntry L2 r := by
  unfold yEntry
  have h3 : (3 * L1.length + r) / 3 = L1.length + r / 3 := by omega
  have hm3 : (3 * L1.length + r) % 3 = r % 3 := by omega
  rw [h3, hm3, List.getD_append_right _ _ _ _ (by omega), Nat.add_sub_cancel_left]

/-- `v_bar` entries of the first block of an appended flat list. -/
theorem vbarEntry_append_left (L1 L2 : List LmRec) (t : ℕ) (ht : t < 4 * L1.length) :
    vbarEntry (L1 ++ L2) t = vbarEntry L1 t := by
  unfold vbarEntry
  rw [List.getD_append _ _ _ _ (by omega)]

/-- `v_bar` entries past the first block. -/
theorem vbarEntry_append_right (L1 L2 : List LmRec) (t : ℕ) :
    vbarEntry (L1 ++ L2) (4 * L1.length + t) = vbarEntry L2 t := by
  unfold vbarEntry
  have h4 : (4 * L1.length + t) / 4 = L1.length + t / 4 := by omega
  have hm4 : (4 * L1.length + t) % 4 = t % 4 := by omega
  rw [h4, hm4, List.getD_append_right _ _ _ _ (by omega), Nat.add_sub_cancel_left]

/-- `A = P V_hat_h` on the first block of an appended flat list. -/
theorem aEntry_append_left (model : PcaModel) (L1 L2 : List LmRec) (r c : ℕ)
    (hr : r < 3 * L1.length) :
    aEntry model (L1 ++ L2) r c = aEntry model L1 r c := by
  unfold aEntry
  rw [List.length_append, show 4 * (L1.length + L2.length) = 4 * L1.length + 4 * L2.length
    by ring, Finset.sum_range_add]
  have h2 : ∀ t ∈ Finset.range (4 * L2.length),
      pEntry (L1 ++ L2) r (4 * L1.length + t) * vhhEntry model (L1 ++ L2) (4 * L1.length + t) c
        = 0 := by
    intro t _
    rw [pEntry_append_left_zero L1 L2 r _ hr (by omega), zero_mul]
  rw [Finset.sum_congr rfl h2, Finset.sum_const_zero, add_zero]
  refine Finset.sum_congr rfl fun t htm => ?_
  rw [pEntry_append_left L1 L2 r t hr,
    vhhEntry_append_left model L1 L2 t c (Finset.mem_range.1 htm)]

/-- `A = P V_hat_h` past the first block of an appended flat list. -/
theorem aEntry_append_right (model : PcaModel) (L1 L2 : List LmRec) (r c : ℕ) :
    aEntry model (L1 ++ L2) (3 * L1.length + r) c = aEntry model L2 r c := by
  unfold aEntry
  rw [List.length_append, show 4 * (L1.length + L2.length) = 4 * L1.length + 4 * L2.length
    by ring, Finset.sum_range_add]
  have h1 : ∀ t ∈ Finset.range (4 * L1.length),
      pEntry (L1 ++ L2) (3 * L1.length + r) t * vhhEntry model (L1 ++ L2) t c = 0 := by
    intro t htm
    rw [pEntry_append_right_zero L1 L2 r t (Finset.mem_range.1 htm), zero_mul]
  rw [Finset.sum_congr rfl h1, Finset.sum_const_zero, zero_add]
  refine Finset.sum_congr rfl fun t _ => ?_
  rw [pEntry_append_right, vhhEntry_append_right]

/-- `b = P v_bar - y` on the first block of an appended flat list. -/
theorem bEntry_append_left (L1 L2 : List LmRec) (r : ℕ) (hr : r < 3 * L1.length) :
    bEntry (L1 ++ L2) r = bEntry L1 r := by
  unfold bEntry
  rw [yEntry_append_left L1 L2 r hr, List.length_append,
    show 4 * (L1.length + L2.length) = 4 * L1.length + 4 * L2.length by ring,
    Finset.sum_range_add]
  have h2 : ∀ t ∈ Finset.range (4 * L2.length),
      pEntry (L1 ++ L2) r (4 * L1.length + t) * vbarEntry (L1 ++ L2) (4 * L1.length + t)
        = 0 := by
    intro t _
    rw [pEntry_append_left_zero L1 L2 r _ hr (by omega), zero_mul]
  rw [Finset.sum_congr rfl h2, Finset.sum_const_zero, add_zero]
  have h1 : ∀ t ∈ Finset.range (4 * L1.length),
      pEntry (L1 ++ L2) r t * vbarEntry (L1 ++ L2) t = pEntry L1 r t * vbarEntry L1 t := by
    intro t htm
    rw [pEntry_append_left L1 L2 r t hr,
      vbarEntry_append_left L1 L2 t (Finset.mem_range.1 htm)]
  rw [Finset.sum_congr rfl h1]

/-- `b = P v_bar - y` past the first block of an appended flat list. -/
theorem bEntry_append_right (L1 L2 : List LmRec) (r : ℕ) :
    bEntry (L1 ++ L2) (3 * L1.length + r) = bEntry L2 r := by
  unfold bEntry
  rw [yEntry_append_right, List.length_append,
    show 4 * (L1.length + L2.length) = 4 * L1.length + 4 * L2.length by ring,
    Finset.sum_range_add]
  have h1 : ∀ t ∈ Finset.range (4 * L1.length),
      pEntry (L1 ++ L2) (3 * L1.length + r) t * vbarEntry (L1 ++ L2) t = 0 := by
    intro t htm
    rw [pEntry_append_right_zero L1 L2 r t (Finset.mem_range.1 htm), zero_mul]
  rw [Finset.sum_congr rfl h1, Finset.sum_const_zero, zero_add]
  have h2 : ∀ t ∈ Finset.range (4 * L2.length),
      pEntry (L1 ++ L2) (3 * L1.length + r) (4 * L1.length + t) *
        vbarEntry (L1 ++ L2) (4 * L1.length + t) = pEntry L2 r t * vbarEntry L2 t := by
    intro t _
    rw [pEntry_append_right, vbarEntry_append_right]
  rw [Finset.sum_congr rfl h2]

/-- `A^T Omega A` is additive over appended flat lists (per-image blocks are
disjoint, so contributions add). -/
theorem gEntry_append (model : PcaModel) (L1 L2 : List LmRec) (sigma2 : ℚ) (i j : ℕ) :
    gEntry model (L1 ++ L2) sigma2 i j =
      gEntry model L1 sigma2 i j + gEntry model L2 sigma2 i j := by
  unfold gEntry
  rw [List.length_append, show 3 * (L1.length + L2.length) = 3 * L1.length + 3 * L2.length
    by ring, Finset.sum_range_add]
  congr 1
  · refine Finset.sum_congr rfl fun r hrm => ?_
    rw [aEntry_append_left model L1 L2 r i (Finset.mem_range.1 hrm),
      aEntry_append_left model L1 L2 r j (Finset.mem_range.1 hrm)]
  · refine Finset.sum_congr rfl fun r _ => ?_
    rw [aEntry_append_right, aEntry_append_right]

/-- `-A^T Omega b` is additive over appended flat lists. -/
theorem rhsEntry_append (model : PcaModel) (L1 L2 : List LmRec) (sigma2 : ℚ) (i : ℕ) :
    rhsEntry model (L1 ++ L2) sigma2 i =
      rhsEntry model L1 sigma2 i + rhsEntry model L2 sigma2 i := by
  unfold rhsEntry
  rw [← neg_add, List.length_append,
    show 3 * (L1.length + L2.length) = 3 * L1.length + 3 * L2.length by ring,
    Finset.sum_range_add]
  congr 2
  · refine Finset.sum_congr rfl fun r hrm => ?_
    rw [aEntry_append_left model L1 L2 r i (Finset.mem_range.1 hrm),
      bEntry_append_left L1 L2 r (Finset.mem_range.1 hrm)]
  · refine Finset.sum_congr rfl fun r _ => ?_
    rw [aEntry_append_right, bEntry_append_right]

/-- Replicating one image's matching inputs `M` times passes the per-image
checks and replicates the effective base face. -/
theorem effBaseFaces_replicate_ok (model : PcaModel) (lm : List (ℚ × ℚ))
    (vid : List ℕ) (b : List ℚ) (h : lm.length = vid.length) :
    ∀ M : ℕ, effBaseFaces model (List.replicate M lm) (List.replicate M vid)
      (List.replicate M b) =
      .ok (List.replicate M (if b.isEmpty then model.mean else b))
  | 0 => rfl
  | M + 1 => by
    simp only [List.replicate_succ, effBaseFaces, h, if_true,
      effBaseFaces_replicate_ok model lm vid b h M]

/-- Replicating one image's mismatching inputs fails on the first copy. -/
theorem effBaseFaces_replicate_err (model : PcaModel) (lm : List (ℚ × ℚ))
    (vid : List ℕ) (b : List ℚ) (h : lm.length ≠ vid.length) (M : ℕ) (hM : 1 ≤ M) :
    effBaseFaces model (List.replicate M lm) (List.replicate M vid)
      (List.replicate M b) = .error .InputCardinalityMismatch := by
  cases M with
  | zero => omega
  | succ M => simp [List.replicate_succ, effBaseFaces, h]

/-- `A^T Omega A` of `M` identical copies is `M` times that of one copy. -/
theorem gEntry_replicate (model : PcaModel) (cam : Cam) (lm : List (ℚ × ℚ))
    (vid : List ℕ) (be : List ℚ) (sigma2 : ℚ) (i j : ℕ) :
    ∀ M : ℕ, gEntry model (flattenInput (List.replicate M cam) (List.replicate M lm)
        (List.replicate M vid) (List.replicate M be)) sigma2 i j =
      (M : ℚ) * gEntry model (flattenInput [cam] [lm] [vid] [be]) sigma2 i j
  | 0 => by simp [flattenInput, gEntry]
  | M + 1 => by
    have hflat : flattenInput (List.replicate (M + 1) cam) (List.replicate (M + 1) lm)
        (List.replicate (M + 1) vid) (List.replicate (M + 1) be) =
        ((lm.zip vid).map fun pv => ⟨cam, pv.1, pv.2, be⟩) ++
          flattenInput (List.replicate M cam) (List.replicate M lm)
            (List.replicate M vid) (List.replicate M be) := by
      simp [List.replicate_succ, flattenInput]
    have hone : flattenInput [cam] [lm] [vid] [be] =
        (lm.zip vid).map fun pv => ⟨cam, pv.1, pv.2, be⟩ := by
      simp [flattenInput]
    rw [hflat, gEntry_append, gEntry_replicate model cam lm vid be sigma2 i j M, hone]
    push_cast
    ring

/-- `-A^T Omega b` of `M` identical copies is `M` times that of one copy. -/
theorem rhsEntry_replicate (model : PcaModel) (cam : Cam) (lm : List (ℚ × ℚ))
    (vid : List ℕ) (be : List ℚ) (sigma2 : ℚ) (i : ℕ) :
    ∀ M : ℕ, rhsEntry model (flattenInput (List.replicate M cam) (List.replicate M lm)
        (List.replicate M vid) (List.replicate M be)) sigma2 i =
      (M : ℚ) * rhsEntry model (flattenInput [cam] [lm] [vid] [be]) sigma2 i
  | 0 => by simp [flattenInput, rhsEntry]
  | M + 1 => by
    have hflat : flattenInput (List.replicate (M + 1) cam) (List.replicate (M + 1) lm)
        (List.replicate (M + 1) vid) (List.replicate (M + 1) be) =
        ((lm.zip vid).map fun pv => ⟨cam, pv.1, pv.2, be⟩) ++
          flattenInput (List.replicate M cam) (List.replicate M lm)
            (List.replicate M vid) (List.replicate M be) := by
      simp [List.replicate_succ, flattenInput]
    have hone : flattenInput [cam] [lm] [vid] [be] =
        (lm.zip vid).map fun pv => ⟨cam, pv.1, pv.2, be⟩ := by
      simp [flattenInput]
    rw [hflat, rhsEntry_append, rhsEntry_replicate model cam lm vid be sigma2 i M, hone]
    push_cast
    ring

/-- Scaling both sides of the system by a nonzero constant does not change the
solution. -/
theorem solveLin_smul {K : ℕ} (X : Matrix (Fin K) (Fin K) ℚ) (r : Fin K → ℚ)
    (m : ℚ) (hm : m ≠ 0) : solveLin (m • X) (m • r) = solveLin X r := by
  by_cases h : X.det = 0
  · unfold solveLin
    rw [detQ_eq, detQ_eq, if_pos h, if_pos (by rw [Matrix.det_smul, h]; ring)]
  · have h2 : (m • X).det ≠ 0 := by
      rw [Matrix.det_smul]
      exact mul_ne_zero (pow_ne_zero _ hm) h
    have hsol := solveLin_spec (m • X) (m • r) h2
    rw [Matrix.smul_mulVec_assoc] at hsol
    have hX : X.mulVec (solveLin (m • X) (m • r)) = r :=
      smul_right_injective (Fin K → ℚ) hm hsol
    exact (solveLin_unique X r h _ hX).symm

/-- Claim C6 (amended): fitting `M` identical copies of a single-image problem
with the SAME caller `lambda` returns exactly the single-image result — the
internal `lambda *= num_images` normalisation compensates for the `M`-fold
data. -/
theorem C6_identical_copies_same_lambda (model : PcaModel) (cam : Cam)
    (lm : List (ℚ × ℚ)) (vid : List ℕ) (b : List ℚ) (lambda : ℚ) (ncf : Option ℕ)
    (dsd msd : Option ℚ) (M : ℕ) (hM : 1 ≤ M) :
    fit_shape_to_landmarks_linear_multi model (List.replicate M cam)
        (List.replicate M lm) (List.replicate M vid) (List.replicate M b)
        lambda ncf dsd msd =
      fit_shape_to_landmarks_linear_multi model [cam] [lm] [vid] [b]
        lambda ncf dsd msd := by
  by_cases h : lm.length = vid.length
  · unfold fit_shape_to_landmarks_linear_multi
    rw [if_pos (by simp), if_pos (by simp),
      effBaseFaces_replicate_ok model lm vid b h M,
      show effBaseFaces model [lm] [vid] [b] =
        .ok [if b.isEmpty then model.mean else b] by simp [effBaseFaces, h]]
    show Except.ok _ = Except.ok _
    congr 1
    have hMq : ((M : ℕ) : ℚ) ≠ 0 := Nat.cast_ne_zero.2 (by omega)
    have hflat1 : flattenInput [cam] [lm] [vid] [if b.isEmpty then model.mean else b] =
        flattenInput (List.replicate 1 cam) (List.replicate 1 lm) (List.replicate 1 vid)
          (List.replicate 1 (if b.isEmpty then model.mean else b)) := rfl
    have hg : gMat model (ncf.getD model.numComponents)
        (flattenInput (List.replicate M cam) (List.replicate M lm)
          (List.replicate M vid) (List.replicate M (if b.isEmpty then model.mean else b)))
        (sigma_squared_2D dsd msd) =
        (M : ℚ) • gMat model (ncf.getD model.numComponents)
          (flattenInput [cam] [lm] [vid] [if b.isEmpty then model.mean else b])
          (sigma_squared_2D dsd msd) := by
      ext i j
      rw [Matrix.smul_apply, gMat, gMat, Matrix.of_apply, Matrix.of_apply,
        gEntry_replicate, smul_eq_mul]
    have hr : rhsVec model (ncf.getD model.numComponents)
        (flattenInput (List.replicate M cam) (List.replicate M lm)
          (List.replicate M vid) (List.replicate M (if b.isEmpty then model.mean else b)))
        (sigma_squared_2D dsd msd) =
        (M : ℚ) • rhsVec model (ncf.getD model.numComponents)
          (flattenInput [cam] [lm] [vid] [if b.isEmpty then model.mean else b])
          (sigma_squared_2D dsd msd) := by
      funext i
      rw [Pi.smul_apply, rhsVec, rhsVec, rhsEntry_replicate, smul_eq_mul]
    have hNM : normalMatrix model (ncf.getD model.numComponents)
        (flattenInput (List.replicate M cam) (List.replicate M lm)
          (List.replicate M vid) (List.replicate M (if b.isEmpty then model.mean else b)))
        (sigma_squared_2D dsd msd)
        (lambda * ((List.replicate M cam).length : ℚ)) =
        (M : ℚ) • normalMatrix model (ncf.getD model.numComponents)
          (flattenInput [cam] [lm] [vid] [if b.isEmpty then model.mean else b])
          (sigma_squared_2D dsd msd)
          (lambda * (([cam] : List Cam).length : ℚ)) := by
      rw [normalMatrix, normalMatrix, hg, smul_add, smul_smul]
      congr 2
      rw [List.length_replicate]
      simp [mul_comm]
    unfold fitCoeffs
    congr 1
    rw [hNM, hr]
    exact solveLin_smul _ _ ((M : ℚ)) hMq
  · unfold fit_shape_to_landmarks_linear_multi
    rw [if_pos (by simp), if_pos (by simp),
      effBaseFaces_replicate_err model lm vid b h M hM,
      show effBaseFaces model [lm] [vid] [b] = .error .InputCardinalityMismatch
        by simp [effBaseFaces, h]]

/-- Witness for claim C6 (amended): two identical copies with the same
`lambda = 3` reproduce the single-image result. -/
theorem C6_identical_copies_same_lambda_witness :
    fit_shape_to_landmarks_linear_multi testModel (List.replicate 2 testCam)
        (List.replicate 2 [((2 : ℚ), (0 : ℚ))]) (List.replicate 2 [0])
        (List.replicate 2 [(0 : ℚ), 0, 0]) 3 none none none =
      fit_shape_to_landmarks_linear_multi testModel [testCam] [[((2 : ℚ), (0 : ℚ))]]
        [[0]] [[(0 : ℚ), 0, 0]] 3 none none none :=
  C6_identical_copies_same_lambda testModel testCam [((2 : ℚ), (0 : ℚ))] [0]
    [(0 : ℚ), 0, 0] 3 none none none 2 (by decide)

/-- Counterexample to claim C6 as stated: two identical copies with `lambda`
scaled by `M = 2` (caller passes `6`) give `[2/19]`, while the single image
with the original `lambda = 3` gives `[1/5]`. -/
theorem C6_counterexample :
    fit_shape_to_landmarks_linear_multi testModel [testCam, testCam]
        [[((2 : ℚ), (0 : ℚ))], [((2 : ℚ), (0 : ℚ))]] [[0], [0]]
        [[(0 : ℚ), 0, 0], [(0 : ℚ), 0, 0]] (3 * 2) none none none ≠
      fit_shape_to_landmarks_linear_multi testModel [testCam] [[((2 : ℚ), (0 : ℚ))]]
        [[0]] [[(0 : ℚ), 0, 0]] 3 none none none := by
  have h1 : fit_shape_to_landmarks_linear_multi testModel [testCam, testCam]
      [[((2 : ℚ), (0 : ℚ))], [((2 : ℚ), (0 : ℚ))]] [[0], [0]]
      [[(0 : ℚ), 0, 0], [(0 : ℚ), 0, 0]] (3 * 2) none none none =
      .ok [(2 : ℚ)/19] := by
    norm_num [fit_shape_to_landmarks_linear_multi, effBaseFaces, flattenInput,
      fitCoeffs, solveLin, cramerQ, detQ_succ, detQ_zero, normalMatrix, gMat, rhsVec,
      gEntry, rhsEntry, aEntry, bEntry, pEntry, vhhEntry, yEntry, vbarEntry,
      sigma_squared_2D, testModel, testCam, Finset.sum_range_succ,
      Finset.sum_range_zero, Fin.sum_univ_succ, Fin.sum_univ_zero, Matrix.of_apply,
      List.getD, Matrix.updateColumn_apply, Matrix.one_apply, List.zip]
  have h2 : fit_shape_to_landmarks_linear_multi testModel [testCam]
      [[((2 : ℚ), (0 : ℚ))]] [[0]] [[(0 : ℚ), 0, 0]] 3 none none none =
      .ok [(1 : ℚ)/5] := by
    norm_num [fit_shape_to_landmarks_linear_multi, effBaseFaces, flattenInput,
      fitCoeffs, solveLin, cramerQ, detQ_succ, detQ_zero, normalMatrix, gMat, rhsVec,
      gEntry, rhsEntry, aEntry, bEntry, pEntry, vhhEntry, yEntry, vbarEntry,
      sigma_squared_2D, testModel, testCam, Finset.sum_range_succ,
      Finset.sum_range_zero, Fin.sum_univ_succ, Fin.sum_univ_zero, Matrix.of_apply,
      List.getD, Matrix.updateColumn_apply, Matrix.one_apply, List.zip]
  rw [h1, h2]
  intro hcontra
  simp only [Except.ok.injEq, List.cons.injEq, and_true] at hcontra
  norm_num at hcontra

end EosFit
